import Mathlib

/-!
Verification development for the dec_ansi_parser repository
(src/dec_ansi_parser/parser.py): a shallow embedding of the DEC ANSI
terminal-control-sequence parser state machine, its transition-table
builder, its parameter model, its incremental UTF-8 reader, and its
main parse loop, together with theorems about that embedding.

All definitions are translated from the Python source.  Fields such as
calls and trace are ghost instrumentation recording what the external
handler callback observes; Python performs the corresponding callback
invocations instead of recording them.
-/

set_option maxRecDepth 10000

namespace DecAnsi

/-- The 14 parser states, mirroring class State in parser.py. -/
inductive State where
  | ground
  | escape
  | escape_intermediate
  | csi_entry
  | csi_param
  | csi_intermediate
  | csi_ignore
  | dcs_entry
  | dcs_param
  | dcs_intermediate
  | dcs_passthrough
  | dcs_ignore
  | osc_string
  | other_string
  deriving DecidableEq, Repr, Fintype

/-- The 14 parser actions, mirroring class Action in parser.py. -/
inductive Action where
  | ignore
  | print
  | execute
  | clear
  | collect
  | param
  | esc_dispatch
  | csi_dispatch
  | hook
  | put
  | unhook
  | osc_start
  | osc_put
  | osc_end
  deriving DecidableEq, Repr, Fintype

/-- A transition: optional target state (none means stay in the current
state) and optional action, mirroring the Transition NamedTuple. -/
structure Transition where
  target : Option State
  action : Option Action
  deriving DecidableEq, Repr

/-- Python helper do(action): stay in the current state, run an action. -/
def doAct (a : Action) : Transition := ⟨none, some a⟩

/-- Python helper to(state, action=None): move to a state, optionally
running an action. -/
def toSt (s : State) (a : Option Action := none) : Transition := ⟨some s, a⟩

/-- A myslice: an inclusive code-point range (start, stop); expand_table
iterates range(start, stop + 1).  A single index x is the slice (x, x). -/
abbrev Slice := Nat × Nat

/-- Range-keyed transition rules for one state: the Python dict, kept as
an ordered list since insertion order decides which rule wins. -/
abbrev RangeTransitions := List (List Slice × Transition)

/-- The anywhere table: rules applied to every state after its own rules,
so they override conflicting state-specific transitions. -/
def anywhere_table : RangeTransitions := [
  -- CAN, SUB
  ([(0x18, 0x18), (0x1A, 0x1A)], toSt State.ground (some Action.execute)),
  -- ESC
  ([(0x1B, 0x1B)], toSt State.escape),
  -- C1 (8-bit) controls:
  ([(0x90, 0x90)], toSt State.dcs_entry),
  ([(0x9B, 0x9B)], toSt State.csi_entry),
  ([(0x9D, 0x9D)], toSt State.osc_string),
  -- SOS, PM, APC
  ([(0x98, 0x98), (0x9E, 0x9E), (0x9F, 0x9F)], toSt State.other_string),
  -- ST
  ([(0x9C, 0x9C)], toSt State.ground (some Action.ignore)),
  -- all other undefined C1 controls
  ([(0x80, 0x8F), (0x91, 0x97), (0x99, 0x99), (0x9A, 0x9A)],
    toSt State.ground (some Action.execute))]

/-- r_normal_c0 = r[0x00:0x17, 0x19, 0x1C:0x1F]: the C0 controls other
than CAN, SUB and ESC. -/
def r_normal_c0 : List Slice := [(0x00, 0x17), (0x19, 0x19), (0x1C, 0x1F)]

/-- The per-state sparse transition rules, mirroring range_table. -/
def range_table (s : State) : RangeTransitions :=
  match s with
  | State.ground => [
      (r_normal_c0, doAct Action.execute),
      ([(0x20, 0x7F)], doAct Action.print)]
  | State.escape => [
      (r_normal_c0, doAct Action.execute),
      ([(0x20, 0x2F)], toSt State.escape_intermediate (some Action.collect)),
      ([(0x30, 0x4F), (0x51, 0x57), (0x59, 0x59), (0x5A, 0x5A), (0x5C, 0x5C),
        (0x60, 0x7E)], toSt State.ground (some Action.esc_dispatch)),
      ([(0x50, 0x50)], toSt State.dcs_entry),
      ([(0x5B, 0x5B)], toSt State.csi_entry),
      ([(0x5D, 0x5D)], toSt State.osc_string),
      ([(0x58, 0x58), (0x5E, 0x5E), (0x5F, 0x5F)], toSt State.other_string),
      ([(0x7F, 0x7F)], doAct Action.ignore)]
  | State.escape_intermediate => [
      (r_normal_c0, doAct Action.execute),
      ([(0x20, 0x2F)], doAct Action.collect),
      ([(0x30, 0x7E)], toSt State.ground (some Action.esc_dispatch)),
      ([(0x7F, 0x7F)], doAct Action.ignore)]
  | State.csi_entry => [
      (r_normal_c0, doAct Action.execute),
      ([(0x20, 0x2F)], toSt State.csi_intermediate (some Action.collect)),
      ([(0x30, 0x39), (0x3B, 0x3B)], toSt State.csi_param (some Action.param)),
      -- sub-parameters
      ([(0x3A, 0x3A)], toSt State.csi_param (some Action.param)),
      ([(0x3C, 0x3F)], toSt State.csi_param (some Action.collect)),
      ([(0x40, 0x7E)], toSt State.ground (some Action.csi_dispatch)),
      ([(0x7F, 0x7F)], doAct Action.ignore)]
  | State.csi_param => [
      (r_normal_c0, doAct Action.execute),
      ([(0x20, 0x2F)], toSt State.csi_intermediate (some Action.collect)),
      ([(0x30, 0x39), (0x3B, 0x3B)], doAct Action.param),
      -- sub-parameters
      ([(0x3A, 0x3A)], doAct Action.param),
      ([(0x3C, 0x3F)], toSt State.csi_ignore),
      ([(0x40, 0x7E)], toSt State.ground (some Action.csi_dispatch)),
      ([(0x7F, 0x7F)], doAct Action.ignore)]
  | State.csi_intermediate => [
      (r_normal_c0, doAct Action.execute),
      ([(0x20, 0x2F)], doAct Action.collect),
      ([(0x30, 0x3F)], toSt State.csi_ignore),
      ([(0x40, 0x7E)], toSt State.ground (some Action.csi_dispatch)),
      ([(0x7F, 0x7F)], doAct Action.ignore)]
  | State.csi_ignore => [
      (r_normal_c0, doAct Action.execute),
      ([(0x20, 0x3F), (0x7F, 0x7F)], doAct Action.ignore),
      ([(0x40, 0x7E)], toSt State.ground)]
  | State.dcs_entry => [
      (r_normal_c0, doAct Action.ignore),
      ([(0x20, 0x2F)], toSt State.dcs_intermediate (some Action.collect)),
      ([(0x30, 0x39), (0x3B, 0x3B)], toSt State.dcs_param (some Action.param)),
      ([(0x3A, 0x3A)], toSt State.dcs_ignore),
      ([(0x3C, 0x3F)], toSt State.dcs_param (some Action.collect)),
      ([(0x40, 0x7E)], toSt State.dcs_passthrough),
      ([(0x7F, 0x7F)], doAct Action.ignore)]
  | State.dcs_param => [
      (r_normal_c0, doAct Action.ignore),
      ([(0x20, 0x2F)], toSt State.dcs_intermediate (some Action.collect)),
      ([(0x30, 0x39), (0x3B, 0x3B)], doAct Action.param),
      ([(0x3A, 0x3A), (0x3C, 0x3F)], toSt State.dcs_ignore),
      ([(0x40, 0x7E)], toSt State.dcs_passthrough),
      ([(0x7F, 0x7F)], doAct Action.ignore)]
  | State.dcs_intermediate => [
      (r_normal_c0, doAct Action.ignore),
      ([(0x20, 0x2F)], doAct Action.collect),
      ([(0x30, 0x3F)], toSt State.dcs_ignore),
      ([(0x40, 0x7E)], toSt State.dcs_passthrough),
      ([(0x7F, 0x7F)], doAct Action.ignore)]
  | State.dcs_passthrough => [
      (r_normal_c0, doAct Action.put),
      ([(0x20, 0x7E)], doAct Action.put),
      ([(0x7F, 0x7F)], doAct Action.ignore)]
  | State.dcs_ignore => [
      (r_normal_c0, doAct Action.ignore),
      ([(0x20, 0x7F)], doAct Action.ignore)]
  | State.osc_string => [
      (r_normal_c0, doAct Action.ignore),
      ([(0x20, 0x7F)], doAct Action.osc_put),
      -- XTerm accepts BEL (0x07) as an OSC string terminator:
      ([(0x07, 0x07)], toSt State.ground (some Action.ignore))]
  | State.other_string => [
      (r_normal_c0, doAct Action.ignore),
      ([(0x20, 0x7F)], doAct Action.ignore)]

/-- Entry actions fired on entering a state, mirroring on_entry. -/
def on_entry (s : State) : Option Action :=
  match s with
  | State.escape => some Action.clear
  | State.csi_entry => some Action.clear
  | State.dcs_entry => some Action.clear
  | State.dcs_passthrough => some Action.hook
  | State.osc_string => some Action.osc_start
  | _ => none

/-- Exit actions fired on leaving a state, mirroring on_exit. -/
def on_exit (s : State) : Option Action :=
  match s with
  | State.dcs_passthrough => some Action.unhook
  | State.osc_string => some Action.osc_end
  | _ => none

/-- A dense row of the transition table, indexed by code point.  A none
entry is the unresolved placeholder Transition(None, None).  The Python
list of 0x9F + 1 entries is embedded as a function; a list update
l[i] = trans becomes a function update, with the latest write read
first, which preserves the last-write-wins overwrite order. -/
abbrev Row := Nat → Option Transition

/-- Write one transition over one inclusive slice of a dense row,
mirroring the inner loops of store_transitions (l[i] = trans). -/
def storeSlice (l : Row) (s : Slice) (t : Transition) : Row :=
  fun i => if s.1 ≤ i ∧ i ≤ s.2 then some t else l i

/-- store_transitions: apply every rule of a range table to a dense row,
in order, so a later rule overwrites an earlier one. -/
def store_transitions (l : Row) (rt : RangeTransitions) : Row :=
  rt.foldl (fun l e => e.1.foldl (fun l s => storeSlice l s e.2) l) l

/-- expand_table for one state: start from a row of placeholder entries,
apply the state's own rules, then apply the anywhere rules on top of
them. -/
def expand_row (rt : RangeTransitions) : Row :=
  store_transitions (store_transitions (fun _ => none) rt) anywhere_table

/-- The dense transition table, state_transitions = expand_table(range_table,
anywhere_table). -/
def state_transitions (s : State) : Row :=
  expand_row (range_table s)

/-- The materialized dense row for one state: the list of 0x9F + 1
entries the Python expand_table builds. -/
def dense_row (s : State) : List (Option Transition) :=
  (List.range 0xA0).map (state_transitions s)

/-- The missing-transition diagnostics expand_table would print for one
state: the code points of 0x00..0x9F whose entry is still the
placeholder. -/
def missing_diagnostics (s : State) : List Nat :=
  (List.range 0xA0).filter fun i => (state_transitions s) i = none

/-- Table lookup as performed by Parser.parse: trans_table[code].  The
placeholder unpacks to (stay, no action), exactly as Transition(None,
None) would in Python.  (Parser.parse only ever looks up code points at
most 0x9F: bytes 0xA0..0xFF are remapped before lookup.) -/
def lookupTrans (s : State) (code : Nat) : Transition :=
  ((state_transitions s) code).getD ⟨none, none⟩

/-- One cell of the Parameters list.  In Python a cell is either an
optional int or a (possibly, a priori, nested) list; the recursive type
mirrors that, and flatness of reachable values is a proved invariant,
not a property of the type. -/
inductive PCell where
  | scalar : Option Int → PCell
  | sub : List PCell → PCell
  deriving Repr

/-- The parameter list; starts as the single unset cell [None]. -/
abbrev Params := List PCell

/-- The initial parameters, Parameters([None]). -/
def initParams : Params := [PCell.scalar none]

/-- Update the last element of a sub-parameter list with a digit:
lst[-1] = (lst[-1] or 0) * 10 + digit.  Python asserts that the last
element is None or an int and raises on an empty list; those cases are
unreachable and left as the identity here. -/
def subDigit (l : List PCell) (digit : Int) : List PCell :=
  match l.getLast? with
  | some (PCell.scalar v) =>
      l.dropLast ++ [PCell.scalar (some ((v.getD 0) * 10 + digit))]
  | _ => l

/-- The param action on the parameter list, from Parser.process.  char
is the triggering code point: a semicolon appends a new unset top-level
cell; a colon turns the last cell into (or extends) a sub-parameter
list; a digit accumulates base-10 into the open cell.  Python indexes
parameters[-1] and would raise IndexError on an empty list; that case
is unreachable (the list is never empty) and left as the identity. -/
def doParam (ps : Params) (char : Int) : Params :=
  if char = 0x3B then ps ++ [PCell.scalar none]
  else if char = 0x3A then
    match ps.getLast? with
    | some (PCell.sub l) => ps.dropLast ++ [PCell.sub (l ++ [PCell.scalar none])]
    | some c => ps.dropLast ++ [PCell.sub [c, PCell.scalar none]]
    | none => ps
  else
    match ps.getLast? with
    | some (PCell.sub l) => ps.dropLast ++ [PCell.sub (subDigit l (char - 0x30))]
    | some (PCell.scalar v) =>
        ps.dropLast ++ [PCell.scalar (some ((v.getD 0) * 10 + (char - 0x30)))]
    | none => ps

/-- One observed invocation of the external handler callback: the action
(none for the reset and end-of-stream sentinel), the character argument
(-1 when not applicable), and the parser view at the time of the call
(the raw bytes read since the previous call, and the parameters). -/
structure HandlerCall where
  action : Option Action
  char : Int
  raw : List Nat
  params : Params
  deriving Repr

/-- The parser instance state, mirroring Parser.__init__, plus two ghost
fields: calls records every invocation of the external callback, and
trace records every action processed by Parser.process (including the
internal ignore, clear, collect and param actions that never reach the
callback). -/
structure PState where
  state : State
  intermediate : List Int
  parameters : Params
  esc_ended_string : Bool
  curr_raw : List Nat
  calls : List HandlerCall
  trace : List (Action × Int)
  deriving Repr

/-- The freshly constructed parser: ground state, empty intermediates,
a single unset parameter, suppression flag off. -/
def initP : PState :=
  { state := State.ground, intermediate := [], parameters := initParams,
    esc_ended_string := false, curr_raw := [], calls := [], trace := [] }

/-- Invoke the external callback: record the call with the current raw
span and parameters, then clear the raw-byte accumulator. -/
def dispatchCb (p : PState) (a : Action) (char : Int) : PState :=
  { p with calls := p.calls ++ [⟨some a, char, p.curr_raw, p.parameters⟩],
           curr_raw := [] }

/-- Parser.process: run one action.  ignore does nothing; clear resets
intermediates and parameters; collect appends the character to the
intermediate buffer; param updates the parameter list; every other
action is dispatched to the external callback, unless the two-byte
string terminator suppression flag is set and the action is
esc_dispatch of a backslash, which is swallowed.  The ghost trace field
records the processed action first. -/
def process (p : PState) (a : Action) (char : Int) : PState :=
  let p := { p with trace := p.trace ++ [(a, char)] }
  match a with
  | Action.ignore => p
  | Action.clear => { p with intermediate := [], parameters := initParams }
  | Action.collect => { p with intermediate := p.intermediate ++ [char] }
  | Action.param => { p with parameters := doParam p.parameters char }
  | _ =>
    if p.esc_ended_string then
      let q := { p with esc_ended_string := false }
      if a = Action.esc_dispatch ∧ char = 0x5C then q
      else dispatchCb q a char
    else dispatchCb p a char

/-- The exit phase of a state change in Parser.parse: if the current
state has an exit action, process it (with character -1), and set the
two-byte-terminator suppression flag when the triggering character was
ESC and the state being left is dcs_passthrough or osc_string. -/
def exitPhase (p : PState) (char : Int) : PState :=
  match on_exit p.state with
  | some ea =>
    let q := process p ea (-1)
    if (q.state = State.osc_string ∨ q.state = State.dcs_passthrough)
        ∧ char = 0x1B
    then { q with esc_ended_string := true } else q
  | none => p

/-- Process a transition's own action, if any. -/
def actionPhase (p : PState) (a : Option Action) (char : Int) : PState :=
  match a with
  | some a => process p a char
  | none => p

/-- The entry phase of a state change: if the target state has an entry
action, process it (with character -1). -/
def entryPhase (p : PState) (ns : State) : PState :=
  match on_entry ns with
  | some a => process p a (-1)
  | none => p

/-- The body of the main loop of Parser.parse, after table lookup: run
the exit action of the current state, the transition's own action, and
the entry action of the target state, then commit the state change;
with no state change, just run the action. -/
def applyTrans (p : PState) (t : Transition) (char : Int) : PState :=
  match t.target with
  | some ns =>
    { entryPhase (actionPhase (exitPhase p char) t.action char) ns with
        state := ns }
  | none => actionPhase p t.action char

/-- One iteration of the main loop of Parser.parse: the yielded value
char is negative for a decoded multi-byte scalar (looked up as 0x7E
and negated back before processing) and a raw byte otherwise (bytes
0xA0..0xFF are masked to 0x20..0x7F for lookup only).  The raw span
read by the generator for this yield is appended to curr_raw first,
as try_unicode extends the shared accumulator when it reads. -/
def parse_one (p : PState) (it : Int × List Nat) : PState :=
  let p := { p with curr_raw := p.curr_raw ++ it.2 }
  let char := it.1
  if char < 0 then
    applyTrans p (lookupTrans p.state 0x7E) (-char)
  else
    let b := char.toNat
    applyTrans p (lookupTrans p.state (if 0xA0 ≤ b ∧ b ≤ 0xFF then b &&& 0x7F else b)) char

/-- The main loop of Parser.parse over the whole yielded sequence. -/
def parse_items (p : PState) (items : List (Int × List Nat)) : PState :=
  items.foldl parse_one p

/-- Number of bytes of a UTF-8 sequence, from its lead byte (the lead is
already known to lie in 0xC2..0xF4). -/
def utf8SeqLen (lead : Nat) : Nat :=
  if lead ≤ 0xDF then 2 else if lead ≤ 0xEF then 3 else 4

/-- Smallest continuation byte accepted at 0-based position pos of a
sequence with the given lead byte, per the UTF-8 validity rules the
codecs incremental decoder enforces (restricted second-byte ranges for
0xE0, 0xF0 against overlong forms and 0xED, 0xF4 against surrogates and
values beyond 0x10FFFF). -/
def utf8ContMin (lead pos : Nat) : Nat :=
  if pos = 1 then
    if lead = 0xE0 then 0xA0 else if lead = 0xF0 then 0x90 else 0x80
  else 0x80

/-- Largest continuation byte accepted at 0-based position pos of a
sequence with the given lead byte. -/
def utf8ContMax (lead pos : Nat) : Nat :=
  if pos = 1 then
    if lead = 0xED then 0x9F else if lead = 0xF4 then 0x8F else 0xBF
  else 0xBF

/-- The scalar value of a complete UTF-8 sequence: low bits of the lead
byte followed by 6 bits per continuation byte. -/
def utf8Cp (lead : Nat) (conts : List Nat) : Nat :=
  conts.foldl (fun acc c => acc * 64 + (c - 0x80))
    (lead - (if lead ≤ 0xDF then 0xC0 else if lead ≤ 0xEF then 0xE0 else 0xF0))

/-- One step of the incremental UTF-8 decoder holding the incomplete
sequence lead :: conts when fed one more byte b: either the sequence is
now complete, or more bytes are needed, or the buffered attempt is
invalid (a UnicodeDecodeError whose object is lead :: conts ++ [b]). -/
inductive DecStep where
  | complete : Nat → DecStep
  | needMore : DecStep
  | invalid : DecStep
  deriving DecidableEq, Repr

/-- Feed one byte to the incremental decoder. -/
def utf8Step (lead : Nat) (conts : List Nat) (b : Nat) : DecStep :=
  let pos := conts.length + 1
  if utf8ContMin lead pos ≤ b ∧ b ≤ utf8ContMax lead pos then
    if pos + 1 = utf8SeqLen lead then DecStep.complete (utf8Cp lead (conts ++ [b]))
    else DecStep.needMore
  else DecStep.invalid

/-- try_unicode as a byte-at-a-time generator.  The first argument is
the incremental decoder's buffer: none when no decode attempt is open,
some (lead, conts) while inside the while-not-output loop for a
multi-byte sequence (Python keeps this state implicitly in the decoder
object and the loop position).  Returns the list of yielded values
paired with the raw span read for each yield (the bytes extended into
the shared raw_bytes accumulator since the previous yield); the bytes
consumed by a decode attempt that never finished; and whether the
generator terminated.

The termination flag is false exactly when the stream ends while a
decode attempt is open: stream.read(1) then returns empty forever, the
incremental decoder consumes nothing and returns no output on empty
input, and the while-not-output loop never exits (see try_unicode_fuel
below for this divergence made explicit with fuel).

Yields are ints: nonnegative for a raw byte, negative (the negated
scalar, -ord(output)) for a decoded multi-byte character.  When a
decode attempt raises UnicodeDecodeError, every byte of the abandoned
attempt (the exception's object, which is the decoder buffer plus the
offending byte) is re-yielded individually as a raw byte; the first
re-yield carries the attempt's whole span, since all those bytes were
already read into the accumulator. -/
def try_unicode_go (dec : Option (Nat × List Nat)) :
    List Nat → List (Int × List Nat) × List Nat × Bool
  | [] =>
    (match dec with
     | none => ([], [], true)
     | some (lead, conts) => ([], lead :: conts, false))
  | b :: rest =>
    match dec with
    | none =>
      if 0xC2 ≤ b ∧ b ≤ 0xF4 then
        -- valid UTF-8 start byte: open an incremental decode
        try_unicode_go (some (b, [])) rest
      else
        let r := try_unicode_go none rest
        (((b : Int), [b]) :: r.1, r.2)
    | some (lead, conts) =>
      match utf8Step lead conts b with
      | DecStep.complete cp =>
        let r := try_unicode_go none rest
        ((-(cp : Int), lead :: (conts ++ [b])) :: r.1, r.2)
      | DecStep.needMore =>
        try_unicode_go (some (lead, conts ++ [b])) rest
      | DecStep.invalid =>
        let r := try_unicode_go none rest
        (((lead : Int), lead :: (conts ++ [b])) ::
          ((conts ++ [b]).map fun (y : Nat) => ((y : Int), ([] : List Nat))) ++ r.1, r.2)

/-- try_unicode over a whole input stream, with no decode attempt open. -/
def try_unicode (l : List Nat) : List (Int × List Nat) × List Nat × Bool :=
  try_unicode_go none l

/-- try_unicode with explicit fuel: one unit of fuel per loop iteration,
including the iterations of the while-not-output loop at end of stream,
where read(1) returns empty, decoder.decode of empty input consumes
nothing and returns no output, and the loop repeats in an unchanged
state.  Returns none when fuel runs out. -/
def try_unicode_fuel (dec : Option (Nat × List Nat)) :
    Nat → List Nat → Option (List (Int × List Nat) × List Nat × Bool)
  | 0, _ => none
  | fuel + 1, [] =>
    (match dec with
     | none => some ([], [], true)
     | some _ => try_unicode_fuel dec fuel [])
  | fuel + 1, b :: rest =>
    match dec with
    | none =>
      if 0xC2 ≤ b ∧ b ≤ 0xF4 then
        try_unicode_fuel (some (b, [])) fuel rest
      else
        (try_unicode_fuel none fuel rest).map fun r =>
          (((b : Int), [b]) :: r.1, r.2)
    | some (lead, conts) =>
      match utf8Step lead conts b with
      | DecStep.complete cp =>
        (try_unicode_fuel none fuel rest).map fun r =>
          ((-(cp : Int), lead :: (conts ++ [b])) :: r.1, r.2)
      | DecStep.needMore =>
        try_unicode_fuel (some (lead, conts ++ [b])) fuel rest
      | DecStep.invalid =>
        (try_unicode_fuel none fuel rest).map fun r =>
          (((lead : Int), lead :: (conts ++ [b])) ::
            ((conts ++ [b]).map fun (y : Nat) => ((y : Int), ([] : List Nat))) ++ r.1, r.2)

/-- The end-of-stream sentinel callback made at the end of Parser.parse:
action None, character -1, with whatever raw bytes are still
unconsumed visible to the handler. -/
def sentinelCall (p : PState) : HandlerCall :=
  ⟨none, -1, p.curr_raw, p.parameters⟩

/-- Parser.parse on a finite input byte stream, from a freshly
constructed parser.  Returns the final parser state and whether the
call terminated: when the stream ends inside an unfinished multi-byte
sequence the generator never raises StopIteration, parse never reaches
its final sentinel callback, and the flag is false (the bytes consumed
by the unfinished attempt were still added to the raw accumulator). -/
def parse (input : List Nat) : PState × Bool :=
  match try_unicode input with
  | (items, _, true) =>
    let p := parse_items initP items
    ({ p with calls := p.calls ++ [sentinelCall p], curr_raw := [] }, true)
  | (items, tail, false) =>
    let p := parse_items initP items
    ({ p with curr_raw := p.curr_raw ++ tail }, false)

/-! ### Helper lemmas: raw-byte accounting -/

/-- All raw bytes the parser has seen: the spans already delivered to
callback invocations plus the pending accumulator. -/
def rawAcc (p : PState) : List Nat :=
  (p.calls.map HandlerCall.raw).flatten ++ p.curr_raw

theorem dispatchCb_rawAcc (p : PState) (a : Action) (c : Int) :
    rawAcc (dispatchCb p a c) = rawAcc p := by
  simp [dispatchCb, rawAcc]

theorem process_rawAcc (p : PState) (a : Action) (c : Int) :
    rawAcc (process p a c) = rawAcc p := by
  cases a <;> simp [process, rawAcc, dispatchCb] <;> split_ifs <;> simp

theorem process_state (p : PState) (a : Action) (c : Int) :
    (process p a c).state = p.state := by
  cases a <;> simp [process, dispatchCb] <;> split_ifs <;> simp

theorem rawAcc_set_flag (p : PState) (b : Bool) :
    rawAcc { p with esc_ended_string := b } = rawAcc p := rfl

theorem rawAcc_set_state (p : PState) (s : State) :
    rawAcc { p with state := s } = rawAcc p := rfl

theorem exitPhase_rawAcc (p : PState) (c : Int) :
    rawAcc (exitPhase p c) = rawAcc p := by
  cases hoe : on_exit p.state <;> simp only [exitPhase, hoe]
  split_ifs <;> simp [rawAcc_set_flag, process_rawAcc]

theorem actionPhase_rawAcc (p : PState) (a : Option Action) (c : Int) :
    rawAcc (actionPhase p a c) = rawAcc p := by
  cases a <;> simp [actionPhase, process_rawAcc]

theorem entryPhase_rawAcc (p : PState) (ns : State) :
    rawAcc (entryPhase p ns) = rawAcc p := by
  cases hen : on_entry ns <;> simp [entryPhase, hen, process_rawAcc]

theorem applyTrans_rawAcc (p : PState) (t : Transition) (c : Int) :
    rawAcc (applyTrans p t c) = rawAcc p := by
  rcases t with ⟨target, action⟩
  cases target with
  | none => simp [applyTrans, actionPhase_rawAcc]
  | some ns =>
    simp [applyTrans, rawAcc_set_state, entryPhase_rawAcc, actionPhase_rawAcc,
      exitPhase_rawAcc]

theorem parse_one_rawAcc (p : PState) (it : Int × List Nat) :
    rawAcc (parse_one p it) = rawAcc p ++ it.2 := by
  simp only [parse_one]
  split_ifs <;> rw [applyTrans_rawAcc] <;> simp [rawAcc, List.append_assoc]

theorem parse_items_rawAcc (items : List (Int × List Nat)) :
    ∀ p : PState, rawAcc (parse_items p items)
      = rawAcc p ++ (items.map Prod.snd).flatten := by
  induction items with
  | nil => intro p; simp [parse_items]
  | cons it its ih =>
    intro p
    simp only [parse_items, List.foldl_cons] at *
    rw [ih, parse_one_rawAcc]
    simp [List.append_assoc]

/-! ### Helper lemmas: the interleaved reader -/

/-- The bytes buffered inside an open decode attempt. -/
def decBuf : Option (Nat × List Nat) → List Nat
  | none => []
  | some (lead, conts) => lead :: conts

/-- Span accounting for the reader: the spans of all yields plus the
bytes of an unfinished attempt make up the buffered bytes followed by
the remaining input — nothing is dropped and nothing is invented. -/
theorem try_unicode_go_spans (l : List Nat) :
    ∀ dec, ((try_unicode_go dec l).1.map Prod.snd).flatten
        ++ (try_unicode_go dec l).2.1
      = decBuf dec ++ l := by
  induction l with
  | nil =>
    intro dec
    rcases dec with _ | ⟨lead, conts⟩ <;> simp [try_unicode_go, decBuf]
  | cons b rest ih =>
    intro dec
    rcases dec with _ | ⟨lead, conts⟩
    · simp only [try_unicode_go]
      split_ifs with hb
      · rw [ih (some (b, []))]; simp [decBuf]
      · simp only [List.map_cons, List.flatten_cons, decBuf]
        rw [List.append_assoc, ih none]
        simp [decBuf]
    · simp only [try_unicode_go]
      cases hst : utf8Step lead conts b with
      | complete cp =>
        simp only [List.map_cons, List.flatten_cons, decBuf]
        rw [List.append_assoc, ih none]
        simp [decBuf]
      | needMore =>
        rw [ih (some (lead, conts ++ [b]))]
        simp [decBuf]
      | invalid =>
        have hA : (((conts ++ [b]).map fun (y : Nat) => ((y : Int), ([] : List Nat))).map
            Prod.snd).flatten = ([] : List Nat) := by
          induction (conts ++ [b]) with
          | nil => rfl
          | cons y ys ihy => simp [ihy]
        simp only [List.map_cons, List.map_append, List.flatten_cons,
          List.flatten_append, hA, List.nil_append, decBuf]
        rw [List.append_assoc, ih none]
        simp [decBuf]

/-- When the reader terminates, no consumed byte is left unattributed to
a yield. -/
theorem try_unicode_go_term (l : List Nat) :
    ∀ dec, (try_unicode_go dec l).2.2 = true → (try_unicode_go dec l).2.1 = [] := by
  induction l with
  | nil =>
    intro dec
    rcases dec with _ | ⟨lead, conts⟩ <;> simp [try_unicode_go]
  | cons b rest ih =>
    intro dec
    rcases dec with _ | ⟨lead, conts⟩
    · simp only [try_unicode_go]
      split_ifs with hb
      · exact ih (some (b, []))
      · exact ih none
    · simp only [try_unicode_go]
      cases hst : utf8Step lead conts b with
      | complete cp => exact ih none
      | needMore => exact ih (some (lead, conts ++ [b]))
      | invalid => exact ih none

/-- A raw one-byte yield: the byte as a nonnegative int, with its own
one-byte span. -/
def rawYield (b : Nat) : Int × List Nat := ((b : Int), [b])

/-- On input containing no valid UTF-8 lead byte (nothing in the range
0xC2..0xF4), the reader yields each byte raw, with its own one-byte
span, and terminates. -/
theorem try_unicode_go_raw (l : List Nat)
    (h : ∀ b ∈ l, ¬(0xC2 ≤ b ∧ b ≤ 0xF4)) :
    try_unicode_go none l = (l.map rawYield, [], true) := by
  induction l with
  | nil => simp [try_unicode_go]
  | cons b rest ih =>
    have hb : ¬(0xC2 ≤ b ∧ b ≤ 0xF4) := h b (List.mem_cons_self b rest)
    have hrest : ∀ x ∈ rest, ¬(0xC2 ≤ x ∧ x ≤ 0xF4) :=
      fun x hx => h x (List.mem_cons_of_mem b hx)
    simp only [try_unicode_go]
    rw [if_neg hb]
    rw [ih hrest]
    simp [rawYield]

/-- The round-trip property for terminating parses: concatenating the
raw-byte spans visible to the handler at each callback invocation
(including the final end-of-stream sentinel call) reconstructs the
input byte-for-byte. -/
theorem parse_roundtrip (input : List Nat) (h : (parse input).2 = true) :
    ((parse input).1.calls.map HandlerCall.raw).flatten = input := by
  have hspans := try_unicode_go_spans input none
  have hterm := try_unicode_go_term input none
  rcases htu : try_unicode_go none input with ⟨items, tail, term⟩
  rw [htu] at hspans hterm
  simp only [decBuf, List.nil_append] at hspans
  unfold parse try_unicode at h ⊢
  rw [htu] at h ⊢
  cases term with
  | false => simp at h
  | true =>
    have htail : tail = [] := hterm rfl
    subst htail
    simp only [List.append_nil] at hspans
    have hacc := parse_items_rawAcc items initP
    have hinit : rawAcc initP = [] := rfl
    rw [hinit, List.nil_append] at hacc
    simp only [List.map_append, List.flatten_append, sentinelCall,
      List.map_cons, List.map_nil, List.flatten_cons, List.flatten_nil,
      List.append_nil]
    calc ((parse_items initP items).calls.map HandlerCall.raw).flatten
          ++ (parse_items initP items).curr_raw
        = rawAcc (parse_items initP items) := rfl
      _ = (items.map Prod.snd).flatten := hacc
      _ = input := hspans

/-! ### Helper lemmas: the transition table -/

/-- Every rule of every range table covers only code points at most
0x9F, so entries beyond the stored dense range stay unresolved. -/
theorem state_transitions_gt (s : State) (c : Nat) (h : 0x9F < c) :
    state_transitions s c = none := by
  cases s <;>
    simp only [state_transitions, expand_row, store_transitions, range_table,
      anywhere_table, r_normal_c0, List.foldl_cons, List.foldl_nil, storeSlice] <;>
    (repeat rw [if_neg (by omega)])

/-- Totality of the dense table over the stored range. -/
theorem trans_total : ∀ s : State, ∀ c < 0xA0,
    ((state_transitions s) c).isSome = true := by decide

/-- In dcs_entry, every final byte 0x40..0x7E moves to dcs_passthrough
with no transition action. -/
theorem lookup_dcs_entry_final : ∀ c < 0x7F, 0x40 ≤ c →
    lookupTrans State.dcs_entry c = ⟨some State.dcs_passthrough, none⟩ := by
  decide

/-- In dcs_passthrough, every byte up to 0x7E other than CAN, SUB and
ESC stays and fires put. -/
theorem lookup_dcs_passthrough_put : ∀ c < 0x7F,
    c ≠ 0x18 → c ≠ 0x1A → c ≠ 0x1B →
    lookupTrans State.dcs_passthrough c = ⟨none, some Action.put⟩ := by
  decide

/-- DEL inside a DCS passthrough is ignored, with no put. -/
theorem lookup_dcs_passthrough_del :
    lookupTrans State.dcs_passthrough 0x7F = ⟨none, some Action.ignore⟩ := by
  decide

/-- Masking a byte with 0x7F is reduction modulo 0x80 (for byte
values). -/
theorem and_7f_eq_mod : ∀ b < 0x100, b &&& 0x7F = b % 0x80 := by decide

/-- A high byte 0xA0..0xFE is masked to 0x20..0x7E before lookup and so
stays in dcs_passthrough and fires put; only 0xFF masks to DEL. -/
theorem lookup_dcs_passthrough_high (b : Nat) (hb1 : 0xA0 ≤ b)
    (hb2 : b ≤ 0xFF) (hff : b ≠ 0xFF) :
    lookupTrans State.dcs_passthrough (b &&& 0x7F)
      = ⟨none, some Action.put⟩ := by
  rw [and_7f_eq_mod b (by omega)]
  exact lookup_dcs_passthrough_put (b % 0x80) (by omega) (by omega)
    (by omega) (by omega)

/-- ESC leaves dcs_passthrough for escape, with no transition action. -/
theorem lookup_dcs_passthrough_esc :
    lookupTrans State.dcs_passthrough 0x1B = ⟨some State.escape, none⟩ := by
  decide

/-- ESC leaves osc_string for escape, with no transition action. -/
theorem lookup_osc_string_esc :
    lookupTrans State.osc_string 0x1B = ⟨some State.escape, none⟩ := by
  decide

/-- Backslash in escape dispatches esc_dispatch and returns to ground. -/
theorem lookup_escape_backslash :
    lookupTrans State.escape 0x5C = ⟨some State.ground, some Action.esc_dispatch⟩ := by
  decide

/-- Recognizer for the entry and exit actions hook, unhook, osc_start
and osc_end on an optional action. -/
def entryExitActOpt : Option Action → Bool
  | some Action.hook => true
  | some Action.unhook => true
  | some Action.osc_start => true
  | some Action.osc_end => true
  | _ => false

/-- No transition stored in the dense table carries an entry or exit
action: hook, unhook, osc_start and osc_end arise only from the
on_entry and on_exit maps. -/
theorem lookup_no_entry_exit_lt : ∀ s : State, ∀ c < 0xA0,
    entryExitActOpt (lookupTrans s c).action = false := by decide

/-- The previous fact for every code point, using that lookups beyond
0x9F unpack the placeholder. -/
theorem lookup_no_entry_exit (s : State) (c : Nat) :
    entryExitActOpt (lookupTrans s c).action = false := by
  by_cases h : c < 0xA0
  · exact lookup_no_entry_exit_lt s c h
  · simp [lookupTrans, state_transitions_gt s c (by omega), entryExitActOpt]

/-! ### Claim C1 -/

/-- C1: Totality of the transition table: for every one of the 14 parser
states and every code point in 0x00..0x9F, lookup in the dense table
produced by expand_table yields a defined transition (a target-or-stay
state plus optional action), never the unresolved placeholder entry,
and no missing-transition diagnostic is emitted when building the
shipped range_table and anywhere_table. -/
theorem claim_C1 : ∀ s : State,
    (∀ c ≤ 0x9F, ((state_transitions s) c).isSome = true)
    ∧ missing_diagnostics s = [] := by
  intro s
  constructor
  · intro c hc
    exact trans_total s c (by omega)
  · rw [missing_diagnostics, List.filter_eq_nil_iff]
    intro i hi
    have := trans_total s i (List.mem_range.mp hi)
    simp only [Option.isSome_iff_ne_none] at this
    simp [this]

/-- Witness for C1 at the ground state and code point 0x41. -/
theorem claim_C1_witness :
    ((state_transitions State.ground) 0x41).isSome = true :=
  (claim_C1 State.ground).1 0x41 (by omega)

/-! ### Claim C2 -/

/-- C2 counterexample: on the one-byte input 0xC3 (a valid UTF-8 lead
byte at end of stream) parse never terminates — the continuation-read
loop spins forever — so the handler never receives the final sentinel
call and the spans it did see (none at all) do not reconstruct the
input. -/
theorem claim_C2_counterexample :
    (parse [0xC3]).2 = false
    ∧ ((parse [0xC3]).1.calls.map HandlerCall.raw).flatten ≠ [0xC3] := by
  refine ⟨rfl, ?_⟩
  decide

/-- C2 (amended): for every finite input byte stream on which parse
terminates, concatenating the raw-byte spans visible to the handler at
each callback invocation (the handler-class dispatches plus the final
end-of-stream sentinel call) reconstructs the original input
byte-for-byte. -/
theorem claim_C2_theorem (input : List Nat) (h : (parse input).2 = true) :
    ((parse input).1.calls.map HandlerCall.raw).flatten = input :=
  parse_roundtrip input h

/-- Witness for C2 on the input consisting of the single byte 0x41. -/
theorem claim_C2_witness :
    (parse [0x41]).2 = true
    ∧ ((parse [0x41]).1.calls.map HandlerCall.raw).flatten = [0x41] :=
  ⟨rfl, claim_C2_theorem [0x41] rfl⟩

/-! ### Claim C5 -/

/-- Once the stream is exhausted with a decode attempt still open, no
amount of fuel lets try_unicode make progress: read(1) keeps returning
empty and the decoder keeps returning no output. -/
theorem try_unicode_fuel_stuck (fuel : Nat) :
    ∀ lead conts, try_unicode_fuel (some (lead, conts)) fuel [] = none := by
  induction fuel with
  | zero => intro lead conts; rfl
  | succ n ih => intro lead conts; exact ih lead conts

/-- Adequacy of the fuel model: whenever the fuel-indexed reader
produces a result, it agrees with the total model try_unicode_go. -/
theorem try_unicode_fuel_sound (fuel : Nat) :
    ∀ dec l r, try_unicode_fuel dec fuel l = some r →
      try_unicode_go dec l = r := by
  induction fuel with
  | zero => intro dec l r h; simp [try_unicode_fuel] at h
  | succ n ih =>
    intro dec l r h
    cases l with
    | nil =>
      rcases dec with _ | ⟨lead, conts⟩
      · simp only [try_unicode_fuel] at h
        cases h
        rfl
      · simp only [try_unicode_fuel] at h
        have := ih _ _ _ h
        simpa [try_unicode_go] using this
    | cons b rest =>
      rcases dec with _ | ⟨lead, conts⟩
      · simp only [try_unicode_fuel] at h
        by_cases hb : 0xC2 ≤ b ∧ b ≤ 0xF4
        · rw [if_pos hb] at h
          simp only [try_unicode_go]
          rw [if_pos hb]
          exact ih _ _ _ h
        · rw [if_neg hb] at h
          rcases Option.map_eq_some'.mp h with ⟨r', hr', rfl⟩
          simp only [try_unicode_go]
          rw [if_neg hb, ih _ _ _ hr']
      · simp only [try_unicode_fuel] at h
        simp only [try_unicode_go]
        cases hst : utf8Step lead conts b with
        | complete cp =>
          rw [hst] at h
          rcases Option.map_eq_some'.mp h with ⟨r', hr', rfl⟩
          rw [ih _ _ _ hr']
        | needMore =>
          rw [hst] at h
          exact ih _ _ _ h
        | invalid =>
          rw [hst] at h
          rcases Option.map_eq_some'.mp h with ⟨r', hr', rfl⟩
          rw [ih _ _ _ hr']

/-- C5: the claim that try_unicode always yields a finite sequence and
parse always terminates fails on the code: on the input consisting of
the single lead byte 0xC3 followed by end of stream, the
while-not-output loop never exits (no fuel suffices), so the generator
hangs and parse never reaches its sentinel dispatch. -/
theorem claim_C5_theorem :
    (∀ fuel, try_unicode_fuel none fuel [0xC3] = none)
    ∧ (try_unicode [0xC3]).2.2 = false
    ∧ (parse [0xC3]).2 = false := by
  refine ⟨?_, rfl, rfl⟩
  intro fuel
  cases fuel with
  | zero => rfl
  | succ n =>
    show try_unicode_fuel (some (0xC3, [])) n [] = none
    exact try_unicode_fuel_stuck n 0xC3 []

/-! ### Claim C3 -/

/-- Scenario B input: ESC [ 3 8 : 2 : 2 5 5 : 0 : 0 m. -/
def scenarioB : List Nat :=
  [0x1B, 0x5B, 0x33, 0x38, 0x3A, 0x32, 0x3A, 0x32, 0x35, 0x35, 0x3A,
   0x30, 0x3A, 0x30, 0x6D]

/-- C3: parsing ESC [ 3 8 : 2 : 2 5 5 : 0 : 0 m leaves the parameters
equal to exactly one cell holding the nested sequence 38, 2, 255, 0, 0,
and the handler receives exactly one csi_dispatch call, with character
m and those parameters, for the sequence (plus only the end-of-stream
sentinel). -/
theorem claim_C3 :
    (parse scenarioB).1.parameters
      = [PCell.sub [PCell.scalar (some 38), PCell.scalar (some 2),
          PCell.scalar (some 255), PCell.scalar (some 0),
          PCell.scalar (some 0)]]
    ∧ ((parse scenarioB).1.calls.map fun h => (h.action, h.char, h.params))
      = [(some Action.csi_dispatch, 0x6D,
          [PCell.sub [PCell.scalar (some 38), PCell.scalar (some 2),
            PCell.scalar (some 255), PCell.scalar (some 0),
            PCell.scalar (some 0)]]),
         (none, -1,
          [PCell.sub [PCell.scalar (some 38), PCell.scalar (some 2),
            PCell.scalar (some 255), PCell.scalar (some 0),
            PCell.scalar (some 0)]])] :=
  ⟨rfl, rfl⟩

/-! ### Claim C9 -/

/-- Scenario A input: ESC [ 3 1 m. -/
def scenarioA : List Nat := [0x1B, 0x5B, 0x33, 0x31, 0x6D]

/-- C9 counterexample: on ESC [ 3 1 m the external handler receives
exactly one call for the sequence — csi_dispatch with character m —
followed by the end-of-stream sentinel; it never receives a clear or a
param call, contrary to the claim. -/
theorem claim_C9_counterexample :
    ((parse scenarioA).1.calls.map fun h => (h.action, h.char))
      = [(some Action.csi_dispatch, 0x6D), (none, -1)]
    ∧ ((parse scenarioA).1.calls.map (fun h => h.action)).count
        (some Action.clear) = 0
    ∧ ((parse scenarioA).1.calls.map (fun h => h.action)).count
        (some Action.param) = 0 :=
  ⟨rfl, rfl, rfl⟩

/-- C9 (amended): parsing ESC [ 3 1 m makes the parser process clear on
entering escape and again on entering csi_entry, then param actions for
the digits 3 and 1 — after which the parameters equal a single cell 31
— and then csi_dispatch with character m; of these only csi_dispatch
reaches the handler, with parameters equal to 31 (clear and param are
internal actions, never passed to the handler). -/
theorem claim_C9_amended :
    (parse scenarioA).1.trace
      = [(Action.clear, -1), (Action.clear, -1), (Action.param, 0x33),
         (Action.param, 0x31), (Action.csi_dispatch, 0x6D)]
    ∧ ((parse scenarioA).1.calls.map fun h => (h.action, h.char, h.params))
      = [(some Action.csi_dispatch, 0x6D, [PCell.scalar (some 31)]),
         (none, -1, [PCell.scalar (some 31)])] :=
  ⟨rfl, rfl⟩

/-! ### Helper lemmas: the suppression flag and dispatching -/

/-- Whether Parser.process hands an action to the external callback
(everything except the internally handled ignore, clear, collect and
param). -/
def handlerClass : Action → Bool
  | Action.ignore => false
  | Action.clear => false
  | Action.collect => false
  | Action.param => false
  | _ => true

/-- Processing a handler-class action always leaves the suppression
flag cleared (it is consumed if it was set). -/
theorem process_flag_handler (p : PState) (a : Action) (c : Int)
    (ha : handlerClass a = true) :
    (process p a c).esc_ended_string = false := by
  cases a <;> simp [handlerClass] at ha <;>
    simp [process, dispatchCb] <;> split_ifs <;> simp_all

/-- Processing an internal action leaves the suppression flag alone. -/
theorem process_flag_internal (p : PState) (a : Action) (c : Int)
    (ha : handlerClass a = false) :
    (process p a c).esc_ended_string = p.esc_ended_string := by
  cases a <;> simp [handlerClass] at ha <;> simp [process]

/-- Processing any action never sets the suppression flag. -/
theorem process_flag_false (p : PState) (a : Action) (c : Int)
    (hf : p.esc_ended_string = false) :
    (process p a c).esc_ended_string = false := by
  cases ha : handlerClass a
  · rw [process_flag_internal p a c ha, hf]
  · exact process_flag_handler p a c ha

/-! ### Helper lemmas: concrete parse steps for DCS scenarios -/

/-- A final byte in dcs_entry enters dcs_passthrough and fires hook with
character -1 (the final byte itself is not passed to the callback). -/
theorem parse_one_dcs_entry_final (p : PState) (F : Nat) (sp : List Nat)
    (hs : p.state = State.dcs_entry) (hf : p.esc_ended_string = false)
    (hF1 : 0x40 ≤ F) (hF2 : F < 0x7F) :
    parse_one p ((F : Int), sp)
      = { p with
          state := State.dcs_passthrough
          curr_raw := []
          calls := p.calls
            ++ [⟨some Action.hook, -1, p.curr_raw ++ sp, p.parameters⟩]
          trace := p.trace ++ [(Action.hook, -1)] } := by
  have hneg : ¬((F : Int) < 0) := by omega
  have hmask : ¬(0xA0 ≤ F ∧ F ≤ 0xFF) := by omega
  simp only [parse_one, if_neg hneg, Int.toNat_natCast, if_neg hmask, hs,
    lookup_dcs_entry_final F hF2 hF1]
  simp [applyTrans, exitPhase, actionPhase, entryPhase, on_exit, on_entry, hs,
    process, dispatchCb, hf]

/-- A put-class byte in dcs_passthrough stays there and fires put with
the byte as character. -/
theorem parse_one_dcs_put (p : PState) (b : Nat) (sp : List Nat)
    (hs : p.state = State.dcs_passthrough) (hf : p.esc_ended_string = false)
    (hb : b < 0x7F) (h18 : b ≠ 0x18) (h1a : b ≠ 0x1A) (h1b : b ≠ 0x1B) :
    parse_one p ((b : Int), sp)
      = { p with
          curr_raw := []
          calls := p.calls
            ++ [⟨some Action.put, (b : Int), p.curr_raw ++ sp, p.parameters⟩]
          trace := p.trace ++ [(Action.put, (b : Int))] } := by
  have hneg : ¬((b : Int) < 0) := by omega
  have hmask : ¬(0xA0 ≤ b ∧ b ≤ 0xFF) := by omega
  simp only [parse_one, if_neg hneg, Int.toNat_natCast, if_neg hmask, hs,
    lookup_dcs_passthrough_put b hb h18 h1a h1b]
  simp [applyTrans, actionPhase, process, dispatchCb, hf]

/-- DEL in dcs_passthrough stays and is ignored: no put reaches the
callback. -/
theorem parse_one_dcs_del (p : PState) (b : Nat) (sp : List Nat)
    (hs : p.state = State.dcs_passthrough) (hb : b = 0x7F) :
    parse_one p ((b : Int), sp)
      = { p with
          curr_raw := p.curr_raw ++ sp
          trace := p.trace ++ [(Action.ignore, (b : Int))] } := by
  subst hb
  have hneg : ¬(((0x7F : Nat) : Int) < 0) := by omega
  have hmask : ¬(0xA0 ≤ (0x7F : Nat) ∧ (0x7F : Nat) ≤ 0xFF) := by omega
  simp only [parse_one, if_neg hneg, Int.toNat_natCast, if_neg hmask, hs,
    lookup_dcs_passthrough_del]
  simp [applyTrans, actionPhase, process]

/-- A high byte 0xA0..0xFE in dcs_passthrough is masked to 0x20..0x7E
for lookup only, stays, and fires put with the unmasked byte as
character. -/
theorem parse_one_dcs_put_high (p : PState) (b : Nat) (sp : List Nat)
    (hs : p.state = State.dcs_passthrough) (hf : p.esc_ended_string = false)
    (hb1 : 0xA0 ≤ b) (hb2 : b ≤ 0xFF) (hff : b ≠ 0xFF) :
    parse_one p ((b : Int), sp)
      = { p with
          curr_raw := []
          calls := p.calls
            ++ [⟨some Action.put, (b : Int), p.curr_raw ++ sp, p.parameters⟩]
          trace := p.trace ++ [(Action.put, (b : Int))] } := by
  have hneg : ¬((b : Int) < 0) := by omega
  have hmask : 0xA0 ≤ b ∧ b ≤ 0xFF := ⟨hb1, hb2⟩
  simp only [parse_one, if_neg hneg, Int.toNat_natCast, if_pos hmask, hs,
    lookup_dcs_passthrough_high b hb1 hb2 hff]
  simp [applyTrans, actionPhase, process, dispatchCb, hf]

/-- Any raw byte that stays in dcs_passthrough and is not (or does not
mask to) DEL fires put with the byte as character: this covers the full
raw body alphabet — everything except CAN, SUB, ESC, the directly
looked-up C1 range 0x80..0x9F (which all leave the state), DEL itself
and 0xFF (masked to DEL). -/
theorem parse_one_dcs_put_any (p : PState) (b : Nat) (sp : List Nat)
    (hs : p.state = State.dcs_passthrough) (hf : p.esc_ended_string = false)
    (hb : b < 0x100) (h18 : b ≠ 0x18) (h1a : b ≠ 0x1A) (h1b : b ≠ 0x1B)
    (hc1 : ¬(0x80 ≤ b ∧ b ≤ 0x9F)) (h7f : b ≠ 0x7F) (hff : b ≠ 0xFF) :
    parse_one p ((b : Int), sp)
      = { p with
          curr_raw := []
          calls := p.calls
            ++ [⟨some Action.put, (b : Int), p.curr_raw ++ sp, p.parameters⟩]
          trace := p.trace ++ [(Action.put, (b : Int))] } := by
  by_cases hlow : b < 0xA0
  · exact parse_one_dcs_put p b sp hs hf (by omega) h18 h1a h1b
  · exact parse_one_dcs_put_high p b sp hs hf (by omega) (by omega) hff

/-- DEL in dcs_passthrough — whether the byte 0x7F itself or 0xFF,
which is masked to 0x7F before lookup — stays and is ignored: no put
reaches the callback. -/
theorem parse_one_dcs_ignored (p : PState) (b : Nat) (sp : List Nat)
    (hs : p.state = State.dcs_passthrough) (hb : b = 0x7F ∨ b = 0xFF) :
    parse_one p ((b : Int), sp)
      = { p with
          curr_raw := p.curr_raw ++ sp
          trace := p.trace ++ [(Action.ignore, (b : Int))] } := by
  rcases hb with rfl | rfl
  · exact parse_one_dcs_del p 0x7F sp hs rfl
  · have hneg : ¬(((0xFF : Nat) : Int) < 0) := by omega
    have hmask : 0xA0 ≤ (0xFF : Nat) ∧ (0xFF : Nat) ≤ 0xFF := by omega
    have hand : (0xFF : Nat) &&& 0x7F = 0x7F := by decide
    simp only [parse_one, if_neg hneg, Int.toNat_natCast, if_pos hmask, hand,
      hs, lookup_dcs_passthrough_del]
    simp [applyTrans, actionPhase, process]

/-- A decoded multi-byte scalar arriving in dcs_passthrough is looked
up as 0x7E, so it stays and fires exactly one put carrying the decoded
scalar value as character: a multi-byte UTF-8 body character produces
one put per decoded scalar, not one per byte. -/
theorem parse_one_dcs_decoded (p : PState) (cp : Nat) (sp : List Nat)
    (hs : p.state = State.dcs_passthrough) (hf : p.esc_ended_string = false)
    (hcp : 0 < cp) :
    parse_one p (-(cp : Int), sp)
      = { p with
          curr_raw := []
          calls := p.calls
            ++ [⟨some Action.put, (cp : Int), p.curr_raw ++ sp, p.parameters⟩]
          trace := p.trace ++ [(Action.put, (cp : Int))] } := by
  have hneg : -((cp : Int)) < 0 := by omega
  have hlk : lookupTrans State.dcs_passthrough 0x7E
      = ⟨none, some Action.put⟩ :=
    lookup_dcs_passthrough_put 0x7E (by omega) (by omega) (by omega) (by omega)
  simp only [parse_one, if_pos hneg, hs, hlk, neg_neg]
  simp [applyTrans, actionPhase, process, dispatchCb, hf]

/-- ESC in dcs_passthrough fires unhook (with character -1), sets the
two-byte-terminator suppression flag, clears intermediates and
parameters on entering escape, and commits the state change. -/
theorem parse_one_dcs_esc (p : PState) (b : Nat) (sp : List Nat)
    (hs : p.state = State.dcs_passthrough) (hf : p.esc_ended_string = false)
    (hb : b = 0x1B) :
    parse_one p ((b : Int), sp)
      = { p with
          state := State.escape
          esc_ended_string := true
          intermediate := []
          parameters := initParams
          curr_raw := []
          calls := p.calls
            ++ [⟨some Action.unhook, -1, p.curr_raw ++ sp, p.parameters⟩]
          trace := p.trace ++ [(Action.unhook, -1), (Action.clear, -1)] } := by
  subst hb
  have hneg : ¬(((0x1B : Nat) : Int) < 0) := by omega
  have hmask : ¬(0xA0 ≤ (0x1B : Nat) ∧ (0x1B : Nat) ≤ 0xFF) := by omega
  simp only [parse_one, if_neg hneg, Int.toNat_natCast, if_neg hmask, hs,
    lookup_dcs_passthrough_esc]
  simp [applyTrans, exitPhase, actionPhase, entryPhase, on_exit, on_entry, hs,
    process, dispatchCb, hf]

/-- The backslash following an ESC-terminated string is swallowed: with
the suppression flag set, esc_dispatch of a backslash in escape state
produces no callback at all, only the state change back to ground, and
the flag is consumed. -/
theorem parse_one_escape_suppressed (p : PState) (b : Nat) (sp : List Nat)
    (hs : p.state = State.escape) (hf : p.esc_ended_string = true)
    (hb : b = 0x5C) :
    parse_one p ((b : Int), sp)
      = { p with
          state := State.ground
          esc_ended_string := false
          curr_raw := p.curr_raw ++ sp
          trace := p.trace ++ [(Action.esc_dispatch, 0x5C)] } := by
  subst hb
  have hneg : ¬(((0x5C : Nat) : Int) < 0) := by omega
  have hmask : ¬(0xA0 ≤ (0x5C : Nat) ∧ (0x5C : Nat) ≤ 0xFF) := by omega
  simp only [parse_one, if_neg hneg, Int.toNat_natCast, if_neg hmask, hs,
    lookup_escape_backslash]
  simp [applyTrans, exitPhase, actionPhase, entryPhase, on_exit, on_entry, hs,
    process, dispatchCb, hf]

/-- Feeding a run of DCS body bytes (put-class bytes and DELs) to a
parser sitting in dcs_passthrough with the suppression flag clear: the
state and flag are unchanged and the callback receives exactly one put
per non-DEL byte, in order, with the byte as character. -/
theorem dcs_body_calls : ∀ body : List Nat,
    (∀ b ∈ body, b < 0x100 ∧ b ≠ 0x18 ∧ b ≠ 0x1A ∧ b ≠ 0x1B
      ∧ ¬(0x80 ≤ b ∧ b ≤ 0x9F)) →
    ∀ p : PState, p.state = State.dcs_passthrough →
      p.esc_ended_string = false →
      (parse_items p (body.map rawYield)).state = State.dcs_passthrough
      ∧ (parse_items p (body.map rawYield)).esc_ended_string = false
      ∧ ((parse_items p (body.map rawYield)).calls.map
            fun h => (h.action, h.char))
        = (p.calls.map fun h => (h.action, h.char))
          ++ ((body.filter fun b => b ≠ 0x7F ∧ b ≠ 0xFF).map
              fun b => (some Action.put, (b : Int))) := by
  intro body
  induction body with
  | nil => intro hb p hs hf; simp [parse_items, hs, hf]
  | cons b rest ih =>
    intro hb p hs hf
    obtain ⟨hb1, hb2, hb3, hb4, hb5⟩ := hb b (List.mem_cons_self b rest)
    have hrest : ∀ x ∈ rest, x < 0x100 ∧ x ≠ 0x18 ∧ x ≠ 0x1A ∧ x ≠ 0x1B
        ∧ ¬(0x80 ≤ x ∧ x ≤ 0x9F) :=
      fun x hx => hb x (List.mem_cons_of_mem b hx)
    simp only [List.map_cons, parse_items, List.foldl_cons]
    by_cases hdel : b = 0x7F ∨ b = 0xFF
    · rw [show rawYield b = ((b : Int), [b]) from rfl,
        parse_one_dcs_ignored p b [b] hs hdel]
      have := ih hrest { p with
          curr_raw := p.curr_raw ++ [b]
          trace := p.trace ++ [(Action.ignore, (b : Int))] } hs hf
      simp only [parse_items] at this
      refine ⟨this.1, this.2.1, ?_⟩
      rw [this.2.2]
      rcases hdel with rfl | rfl <;> simp [List.filter_cons]
    · rw [not_or] at hdel
      rw [show rawYield b = ((b : Int), [b]) from rfl,
        parse_one_dcs_put_any p b [b] hs hf hb1 hb2 hb3 hb4 hb5
          hdel.1 hdel.2]
      have := ih hrest { p with
          curr_raw := []
          calls := p.calls
            ++ [⟨some Action.put, (b : Int), p.curr_raw ++ [b], p.parameters⟩]
          trace := p.trace ++ [(Action.put, (b : Int))] } hs hf
      simp only [parse_items] at this
      refine ⟨this.1, this.2.1, ?_⟩
      rw [this.2.2]
      simp [List.filter_cons, hdel.1, hdel.2]

/-- Leaving dcs_passthrough or osc_string sets the suppression flag
exactly when the triggering character is ESC: the exit action (unhook
or osc_end) is dispatched first, consuming any previously set flag. -/
theorem exitPhase_flag_strings (p : PState) (c : Int)
    (hs : p.state = State.dcs_passthrough ∨ p.state = State.osc_string) :
    (exitPhase p c).esc_ended_string = decide (c = 0x1B) := by
  rcases hs with hs | hs
  · simp only [exitPhase, hs, on_exit]
    by_cases hc : c = 0x1B
    · simp [hc, process_state, hs]
    · simp [hc, process_state, hs,
        process_flag_handler p Action.unhook (-1) rfl]
  · simp only [exitPhase, hs, on_exit]
    by_cases hc : c = 0x1B
    · simp [hc, process_state, hs]
    · simp [hc, process_state, hs,
        process_flag_handler p Action.osc_end (-1) rfl]

/-- actionPhase never sets a clear suppression flag. -/
theorem actionPhase_flag_false (p : PState) (a : Option Action) (c : Int)
    (hf : p.esc_ended_string = false) :
    (actionPhase p a c).esc_ended_string = false := by
  cases a <;> simp [actionPhase, hf, process_flag_false]

/-- entryPhase never sets a clear suppression flag. -/
theorem entryPhase_flag_false (p : PState) (ns : State)
    (hf : p.esc_ended_string = false) :
    (entryPhase p ns).esc_ended_string = false := by
  cases hen : on_entry ns <;> simp [entryPhase, hen, hf, process_flag_false]

/-- Entering escape only processes the internal clear action, leaving
the suppression flag alone. -/
theorem entryPhase_escape_flag (p : PState) :
    (entryPhase p State.escape).esc_ended_string = p.esc_ended_string := by
  simp [entryPhase, on_entry, process_flag_internal p Action.clear (-1) rfl]

/-! ### Claim C4 -/

/-- C4 counterexample: a DCS sequence whose body is the single byte DEL
(0x7F), terminated by the two-byte String Terminator ESC backslash: the
handler receives hook and unhook (and the sentinel) but no put at all
for the body byte, so the claimed one-put-per-body-byte fails. -/
theorem claim_C4_counterexample :
    ((parse [0x1B, 0x50, 0x71, 0x7F, 0x1B, 0x5C]).1.calls.map
        fun h => (h.action, h.char))
      = [(some Action.hook, -1), (some Action.unhook, -1), (none, -1)] := rfl

/-- C4 (amended): for every DCS sequence ESC P, final byte, raw-path
body bytes, terminated by ESC backslash — a raw-path body byte being
any byte value outside CAN, SUB, ESC, the directly looked-up C1 range
0x80..0x9F (all of which leave the string) and the UTF-8 lead range
0xC2..0xF4 (which instead starts an incremental decode) — the handler
receives hook on entry to dcs_passthrough (character -1), one put per
body byte with the unmasked byte as character, except DEL (0x7F) and
0xFF (which the parser masks to DEL), both ignored with no put; unhook
fired on the ESC byte (character -1); and the subsequent backslash
produces no esc_dispatch handler call at all; only the end-of-stream
sentinel follows.  Second conjunct: each successfully decoded
multi-byte scalar reaching dcs_passthrough fires exactly one put
carrying the decoded scalar value, staying in the state — one put per
decoded character, not per byte.  Third conjunct: the suppression flag
is set by a byte leaving dcs_passthrough or osc_string exactly when
that byte is ESC (0x1B). -/
theorem claim_C4_theorem :
    (∀ (F : Nat) (body : List Nat), 0x40 ≤ F → F < 0x7F →
      (∀ b ∈ body, b < 0x100 ∧ b ≠ 0x18 ∧ b ≠ 0x1A ∧ b ≠ 0x1B
        ∧ ¬(0x80 ≤ b ∧ b ≤ 0x9F) ∧ ¬(0xC2 ≤ b ∧ b ≤ 0xF4)) →
      ((parse ([0x1B, 0x50, F] ++ body ++ [0x1B, 0x5C])).1.calls.map
          fun h => (h.action, h.char))
        = (some Action.hook, (-1 : Int))
            :: (((body.filter fun b => b ≠ 0x7F ∧ b ≠ 0xFF).map
                  fun b => (some Action.put, (b : Int)))
              ++ [(some Action.unhook, -1), (none, -1)]))
    ∧ (∀ (p : PState) (cp : Nat) (sp : List Nat),
        p.state = State.dcs_passthrough → p.esc_ended_string = false →
        0 < cp →
        ((parse_one p (-(cp : Int), sp)).calls.map
            fun h => (h.action, h.char))
          = (p.calls.map fun h => (h.action, h.char))
            ++ [(some Action.put, (cp : Int))]
        ∧ (parse_one p (-(cp : Int), sp)).state = State.dcs_passthrough)
    ∧ (∀ (p : PState) (b : Nat) (sp : List Nat),
        (p.state = State.dcs_passthrough ∨ p.state = State.osc_string) →
        (lookupTrans p.state
            (if 0xA0 ≤ b ∧ b ≤ 0xFF then b &&& 0x7F else b)).target ≠ none →
        ((parse_one p ((b : Int), sp)).esc_ended_string = true ↔ b = 0x1B)) := by
  refine ⟨?_, ?_, ?_⟩
  · intro F body hF1 hF2 hb
    have hraw : ∀ x ∈ [0x1B, 0x50, F] ++ body ++ [0x1B, 0x5C],
        ¬(0xC2 ≤ x ∧ x ≤ 0xF4) := by
      intro x hx
      simp only [List.mem_append, List.mem_cons, List.not_mem_nil, or_false] at hx
      rcases hx with ((rfl | rfl | rfl) | hx) | (rfl | rfl)
      · omega
      · omega
      · omega
      · exact (hb x hx).2.2.2.2.2
      · omega
      · omega
    have hbody_raw : ∀ b ∈ body, b < 0x100 ∧ b ≠ 0x18 ∧ b ≠ 0x1A ∧ b ≠ 0x1B
        ∧ ¬(0x80 ≤ b ∧ b ≤ 0x9F) := by
      intro x hx
      obtain ⟨h1, h2, h3, h4, h5, _⟩ := hb x hx
      exact ⟨h1, h2, h3, h4, h5⟩
    have htu := try_unicode_go_raw _ hraw
    unfold parse try_unicode
    rw [htu]
    dsimp only
    simp only [List.map_append, List.map_cons, List.map_nil, parse_items,
      List.foldl_append, List.foldl_cons, List.foldl_nil]
    have e12 : parse_one (parse_one initP (rawYield 0x1B)) (rawYield 0x50)
        = { state := State.dcs_entry, intermediate := [],
            parameters := initParams, esc_ended_string := false,
            curr_raw := [0x1B, 0x50], calls := [],
            trace := [(Action.clear, -1), (Action.clear, -1)] } := by rfl
    rw [e12, show rawYield F = ((F : Int), [F]) from rfl,
      parse_one_dcs_entry_final _ F [F] rfl rfl hF1 hF2]
    simp only [List.cons_append, List.nil_append, List.append_nil]
    have hbody := dcs_body_calls body hbody_raw
      { state := State.dcs_passthrough, intermediate := [],
        parameters := initParams, esc_ended_string := false,
        curr_raw := [],
        calls := [⟨some Action.hook, -1, [0x1B, 0x50, F], initParams⟩],
        trace := [(Action.clear, -1), (Action.clear, -1), (Action.hook, -1)] }
      rfl rfl
    simp only [parse_items] at hbody
    obtain ⟨hqs, hqf, hqc⟩ := hbody
    rw [show rawYield 0x1B = (((0x1B : Nat) : Int), [0x1B]) from rfl,
      parse_one_dcs_esc _ 0x1B [0x1B] hqs hqf rfl]
    rw [show rawYield 0x5C = (((0x5C : Nat) : Int), [0x5C]) from rfl,
      parse_one_escape_suppressed _ 0x5C [0x5C] rfl rfl rfl]
    simp only [sentinelCall, List.map_append, List.map_cons, List.map_nil]
    rw [hqc]
    simp
  · intro p cp sp hs hf hcp
    rw [parse_one_dcs_decoded p cp sp hs hf hcp]
    exact ⟨by simp, by simpa using hs⟩
  · intro p b sp hs hex
    have hneg : ¬((b : Int) < 0) := by omega
    have hs' : ({ p with curr_raw := p.curr_raw ++ sp } : PState).state
          = State.dcs_passthrough
        ∨ ({ p with curr_raw := p.curr_raw ++ sp } : PState).state
          = State.osc_string := by
      simpa using hs
    simp only [parse_one, if_neg hneg, Int.toNat_natCast]
    rcases ht : lookupTrans p.state
        (if 0xA0 ≤ b ∧ b ≤ 0xFF then b &&& 0x7F else b) with ⟨tgt, act⟩
    rcases tgt with _ | ns
    · rw [ht] at hex; simp at hex
    · simp only [applyTrans]
      by_cases hbesc : b = 0x1B
      · subst hbesc
        have hmask : ¬(0xA0 ≤ (0x1B : Nat) ∧ (0x1B : Nat) ≤ 0xFF) := by omega
        rw [if_neg hmask] at ht
        have hlk : lookupTrans p.state 0x1B = ⟨some State.escape, none⟩ := by
          rcases hs with hs | hs
          · rw [hs]; exact lookup_dcs_passthrough_esc
          · rw [hs]; exact lookup_osc_string_esc
        rw [hlk] at ht
        cases ht
        simp only [actionPhase]
        rw [entryPhase_escape_flag, exitPhase_flag_strings _ _ hs']
        simp
      · have hflag : (exitPhase { p with curr_raw := p.curr_raw ++ sp }
            (b : Int)).esc_ended_string = false := by
          rw [exitPhase_flag_strings _ _ hs']
          simp only [decide_eq_false_iff_not]
          omega
        have hall : (entryPhase (actionPhase
            (exitPhase { p with curr_raw := p.curr_raw ++ sp } (b : Int))
            act (b : Int)) ns).esc_ended_string = false :=
          entryPhase_flag_false _ _ (actionPhase_flag_false _ _ _ hflag)
        simp [hall, hbesc]

/-- Witness for C4 on the DCS sequence ESC P q, body bytes A, 0xA1 and
0xFF, ESC backslash: puts fire for A and for the masked high byte 0xA1
(with the unmasked byte as character) but not for 0xFF, which masks to
DEL; for the decoded-scalar conjunct at the scalar 0xE9 of a two-byte
UTF-8 character; and for the flag characterization at a parser sitting
in dcs_passthrough fed an ESC byte. -/
theorem claim_C4_witness :
    (((parse ([0x1B, 0x50, 0x71] ++ [0x41, 0xA1, 0xFF] ++ [0x1B, 0x5C])).1.calls.map
        fun h => (h.action, h.char))
      = [(some Action.hook, -1), (some Action.put, 0x41),
         (some Action.put, 0xA1), (some Action.unhook, -1), (none, -1)])
    ∧ (((parse_one { initP with state := State.dcs_passthrough }
          (-((0xE9 : Nat) : Int), [0xC3, 0xA9])).calls.map
            fun h => (h.action, h.char))
        = [(some Action.put, 0xE9)])
    ∧ ((parse_one { initP with state := State.dcs_passthrough }
          ((0x1B : Int), [0x1B])).esc_ended_string = true
        ↔ (0x1B : Nat) = 0x1B) := by
  refine ⟨?_, ?_, ?_⟩
  · have := claim_C4_theorem.1 0x71 [0x41, 0xA1, 0xFF] (by omega) (by omega)
      (by intro b hb; simp at hb; rcases hb with rfl | rfl | rfl <;> omega)
    simpa using this
  · have := claim_C4_theorem.2.1 { initP with state := State.dcs_passthrough }
      0xE9 [0xC3, 0xA9] rfl rfl (by omega)
    simpa using this.1
  · exact claim_C4_theorem.2.2 { initP with state := State.dcs_passthrough }
      0x1B [0x1B] (Or.inl rfl) (by decide)

/-! ### Claim C6 -/

/-- The spans of a run of raw re-yields carry no bytes beyond the first. -/
theorem map_snd_nilspans (ys : List Nat) :
    ((ys.map fun (y : Nat) => ((y : Int), ([] : List Nat))).map
        Prod.snd).flatten
      = ([] : List Nat) := by
  induction ys with
  | nil => rfl
  | cons y ys ih => simp [ih]

/-- The values of a run of raw re-yields are the re-fed bytes, in
order. -/
theorem map_fst_nilspans (ys : List Nat) :
    (ys.map fun (y : Nat) => ((y : Int), ([] : List Nat))).map Prod.fst
      = ys.map fun (x : Nat) => ((x : Nat) : Int) := by
  induction ys with
  | nil => rfl
  | cons y ys ih => simp only [List.map_cons, ih]

/-- C6 counterexample: the input 0xC3 0x1B (a valid lead byte followed
by ESC, which makes the sequence invalid): both bytes are re-fed
individually as raw bytes, but the handler receives only one dispatch
(print for the re-fed lead byte) before the sentinel — the re-fed ESC
performs a pure state change with no handler call, so there is not one
parser dispatch per original raw byte. -/
theorem claim_C6_counterexample :
    ((parse [0xC3, 0x1B]).1.calls.map fun h => (h.action, h.char))
      = [(some Action.print, 0xC3), (none, -1)] := rfl

/-- C6 (amended): whenever an open decode attempt with buffer
lead :: conts is fed a byte b that makes the sequence invalid, every
byte consumed by the abandoned attempt (lead and continuation bytes
alike, b included) is re-yielded individually as a raw byte, in order,
ahead of the rest of the stream; the concatenated spans still account
for every attempt byte exactly once (none dropped), no decoded scalar
is produced for the attempt, and the remainder of the stream is read as
if fresh.  Each re-yielded byte then takes the ordinary raw-byte path
through the parser, which calls the handler only when the (state, byte)
transition carries a handler-class action. -/
theorem claim_C6_theorem (lead : Nat) (conts : List Nat) (b : Nat)
    (rest : List Nat) (_hl : 0xC2 ≤ lead ∧ lead ≤ 0xF4)
    (hinv : utf8Step lead conts b = DecStep.invalid) :
    ((try_unicode_go (some (lead, conts)) (b :: rest)).1.map Prod.fst
      = ((lead :: (conts ++ [b])).map fun x => ((x : Nat) : Int))
        ++ (try_unicode_go none rest).1.map Prod.fst)
    ∧ ((try_unicode_go (some (lead, conts)) (b :: rest)).1.map
          Prod.snd).flatten
      = (lead :: (conts ++ [b]))
        ++ ((try_unicode_go none rest).1.map Prod.snd).flatten
    ∧ (try_unicode_go (some (lead, conts)) (b :: rest)).2
      = (try_unicode_go none rest).2 := by
  refine ⟨?_, ?_, ?_⟩
  · simp only [try_unicode_go, hinv, List.map_cons, List.map_append,
      map_fst_nilspans]
  · simp only [try_unicode_go, hinv, List.map_cons, List.map_append,
      List.flatten_cons, List.flatten_append, map_snd_nilspans,
      List.nil_append]
    simp
  · simp only [try_unicode_go, hinv]

/-- Witness for C6: the attempt 0xC3 followed by the invalid
continuation byte 0x41 at the end of the stream is re-yielded as the
two raw bytes 0xC3 and 0x41, whose spans cover both bytes. -/
theorem claim_C6_witness :
    ((try_unicode_go (some (0xC3, [])) [0x41]).1.map Prod.fst
      = [(0xC3 : Int), 0x41])
    ∧ ((try_unicode_go (some (0xC3, [])) [0x41]).1.map Prod.snd).flatten
      = [0xC3, 0x41] := by
  have h := claim_C6_theorem 0xC3 [] 0x41 [] (by omega) (by decide)
  exact ⟨by simpa using h.1, by simpa using h.2.1⟩

/-! ### Claim C8 -/

/-- C8 counterexample: in csi_ignore, the C0 byte 0x0A fires execute to
the handler (not only ignore); and in dcs_ignore, the dispatch-class
byte 0x41 does not leave the state (the machine does not resynchronize
there). -/
theorem claim_C8_counterexample :
    ((parse_one { initP with state := State.csi_ignore }
          ((0x0A : Int), [0x0A])).calls.map fun h => (h.action, h.char))
      = [(some Action.execute, 0x0A)]
    ∧ (parse_one { initP with state := State.dcs_ignore }
          ((0x41 : Int), [0x41])).state = State.dcs_ignore :=
  ⟨rfl, rfl⟩

/-- C8 (amended): outside the global anywhere overrides (CAN, SUB, ESC
and the C1 range), every byte consumed in dcs_ignore stays there and
fires only ignore — including the dispatch-class bytes 0x40..0x7E, so
dcs_ignore does not resynchronize on them — while csi_ignore fires
execute for normal C0 controls, leaves for ground (resynchronizing,
with no action) exactly on the dispatch-class bytes 0x40..0x7E, and
fires only ignore on everything else; no lookup is undefined, so no
error can be raised. -/
theorem claim_C8_theorem : ∀ c < 0x80, c ≠ 0x18 → c ≠ 0x1A → c ≠ 0x1B →
    (lookupTrans State.dcs_ignore c = ⟨none, some Action.ignore⟩)
    ∧ (lookupTrans State.csi_ignore c
        = if c ≤ 0x1F then ⟨none, some Action.execute⟩
          else if 0x40 ≤ c ∧ c ≤ 0x7E then ⟨some State.ground, none⟩
          else ⟨none, some Action.ignore⟩) := by decide

/-- Witness for C8 at the dispatch-class byte 0x41: ignored in
dcs_ignore, resynchronizes to ground from csi_ignore. -/
theorem claim_C8_witness :
    (lookupTrans State.dcs_ignore 0x41 = ⟨none, some Action.ignore⟩)
    ∧ lookupTrans State.csi_ignore 0x41 = ⟨some State.ground, none⟩ := by
  have h := claim_C8_theorem 0x41 (by omega) (by omega) (by omega) (by omega)
  exact ⟨h.1, by simpa using h.2⟩

/-! ### Claim C7 -/

/-- A parameter cell is flat when it is a scalar or a list whose
elements are all scalars (no second level of nesting). -/
def flatCell : PCell → Bool
  | PCell.scalar _ => true
  | PCell.sub l => l.all fun c =>
      match c with
      | PCell.scalar _ => true
      | PCell.sub _ => false

/-- Well-formedness of the parameter list: at least one cell, and every
cell flat. -/
def paramsWF (ps : Params) : Bool := !ps.isEmpty && ps.all flatCell

/-- Replacing the last element of an all-satisfying list by a
satisfying element keeps the property. -/
theorem all_dropLast_append {α : Type} {f : α → Bool} {l : List α} {x : α}
    (h : l.all f = true) (hx : f x = true) :
    ((l.dropLast ++ [x]).all f) = true := by
  rw [List.all_append, Bool.and_eq_true]
  rw [List.all_eq_true] at h
  constructor
  · rw [List.all_eq_true]
    exact fun a ha => h a (List.dropLast_subset l ha)
  · simp [hx]

/-- An element returned by getLast? is a member of the list. -/
theorem mem_of_getLast {α : Type} {l : List α} {a : α}
    (h : l.getLast? = some a) : a ∈ l := by
  have := List.dropLast_append_getLast? a h
  rw [← this]
  simp

/-- subDigit keeps a flat sub-parameter list flat. -/
theorem subDigit_flat (l : List PCell) (d : Int)
    (h : flatCell (PCell.sub l) = true) :
    flatCell (PCell.sub (subDigit l d)) = true := by
  unfold subDigit
  rcases hgl : l.getLast? with _ | c
  · exact h
  · cases c with
    | scalar v =>
      simp only [flatCell] at h ⊢
      exact all_dropLast_append h rfl
    | sub m => exact h

/-- The param action preserves well-formedness of the parameter list:
a semicolon appends a scalar cell, a colon produces or extends a flat
sub-list, and a digit only rewrites a scalar slot. -/
theorem doParam_wf (ps : Params) (c : Int) (h : paramsWF ps = true) :
    paramsWF (doParam ps c) = true := by
  rw [paramsWF, Bool.and_eq_true] at h
  obtain ⟨hne, hall⟩ := h
  unfold doParam
  split_ifs with h1 h2
  · rw [paramsWF, Bool.and_eq_true]
    refine ⟨by simp, ?_⟩
    rw [List.all_append, hall]
    rfl
  · rcases hgl : ps.getLast? with _ | c0
    · rw [paramsWF, Bool.and_eq_true]; exact ⟨hne, hall⟩
    · cases c0 with
      | scalar v =>
        rw [paramsWF, Bool.and_eq_true]
        refine ⟨by simp, ?_⟩
        exact all_dropLast_append hall rfl
      | sub l =>
        rw [paramsWF, Bool.and_eq_true]
        refine ⟨by simp, ?_⟩
        have hl : flatCell (PCell.sub l) = true := by
          rw [List.all_eq_true] at hall
          exact hall _ (mem_of_getLast hgl)
        refine all_dropLast_append hall ?_
        simp only [flatCell, List.all_append] at hl ⊢
        rw [hl]
        rfl
  · rcases hgl : ps.getLast? with _ | c0
    · rw [paramsWF, Bool.and_eq_true]; exact ⟨hne, hall⟩
    · cases c0 with
      | sub l =>
        rw [paramsWF, Bool.and_eq_true]
        refine ⟨by simp, ?_⟩
        have hl : flatCell (PCell.sub l) = true := by
          rw [List.all_eq_true] at hall
          exact hall _ (mem_of_getLast hgl)
        exact all_dropLast_append hall (subDigit_flat l (c - 0x30) hl)
      | scalar v =>
        rw [paramsWF, Bool.and_eq_true]
        refine ⟨by simp, ?_⟩
        exact all_dropLast_append hall rfl

/-- Processing any action preserves parameter well-formedness. -/
theorem process_paramsWF (p : PState) (a : Action) (c : Int)
    (h : paramsWF p.parameters = true) :
    paramsWF (process p a c).parameters = true := by
  cases a <;>
    simp only [process, dispatchCb] <;>
    first
      | exact h
      | rfl
      | exact doParam_wf p.parameters c h
      | (split_ifs <;> simp <;> exact h)

/-- All three phases of a transition preserve parameter
well-formedness. -/
theorem applyTrans_paramsWF (p : PState) (t : Transition) (c : Int)
    (h : paramsWF p.parameters = true) :
    paramsWF (applyTrans p t c).parameters = true := by
  rcases t with ⟨tgt, act⟩
  cases tgt with
  | none =>
    cases act with
    | none => exact h
    | some a => exact process_paramsWF p a c h
  | some ns =>
    simp only [applyTrans]
    have h1 : paramsWF (exitPhase p c).parameters = true := by
      cases hoe : on_exit p.state <;> simp only [exitPhase, hoe]
      · exact h
      · split_ifs <;> simpa using process_paramsWF p _ (-1) h
    have h2 : paramsWF (actionPhase (exitPhase p c) act c).parameters
        = true := by
      cases act with
      | none => exact h1
      | some a => exact process_paramsWF _ a c h1
    cases hen : on_entry ns with
    | none => simpa [entryPhase, hen] using h2
    | some a =>
      simpa [entryPhase, hen] using process_paramsWF _ a (-1) h2

/-- One main-loop iteration preserves parameter well-formedness. -/
theorem parse_one_paramsWF (p : PState) (it : Int × List Nat)
    (h : paramsWF p.parameters = true) :
    paramsWF (parse_one p it).parameters = true := by
  simp only [parse_one]
  split_ifs <;> exact applyTrans_paramsWF _ _ _ h

/-- The whole main loop preserves parameter well-formedness. -/
theorem parse_items_paramsWF (items : List (Int × List Nat)) :
    ∀ p : PState, paramsWF p.parameters = true →
      paramsWF (parse_items p items).parameters = true := by
  induction items with
  | nil => intro p h; exact h
  | cons it its ih =>
    intro p h
    simp only [parse_items, List.foldl_cons] at *
    exact ih _ (parse_one_paramsWF p it h)

/-- C7: the parameter list is well formed at every point between
resets: after construction, after every clear, after every single
processed action and code point, and at the end of any terminating or
hanging parse: it always holds at least one cell, and every cell is a
scalar or a flat list of scalars (sub-parameter nesting depth never
exceeds 1). -/
theorem claim_C7 :
    paramsWF initParams = true
    ∧ (∀ p : PState, ∀ a : Action, ∀ c : Int,
        paramsWF p.parameters = true →
        paramsWF (process p a c).parameters = true)
    ∧ (∀ (p : PState) (it : Int × List Nat),
        paramsWF p.parameters = true →
        paramsWF (parse_one p it).parameters = true)
    ∧ (∀ input : List Nat, paramsWF (parse input).1.parameters = true) := by
  refine ⟨rfl, process_paramsWF, parse_one_paramsWF, ?_⟩
  intro input
  unfold parse try_unicode
  rcases htu : try_unicode_go none input with ⟨items, tail, term⟩
  cases term <;>
    simpa using parse_items_paramsWF items initP rfl

/-- Witness for C7: processing a param action for a colon on the fresh
parser keeps the parameters well formed. -/
theorem claim_C7_witness :
    paramsWF (process initP Action.param 0x3A).parameters = true :=
  claim_C7.2.1 initP Action.param 0x3A claim_C7.1

/-! ### Claim C10 -/

/-- The C10 call property: a hook, unhook, osc_start or osc_end call
carries the sentinel character -1. -/
def entryExitOk (h : HandlerCall) : Prop :=
  (h.action = some Action.hook ∨ h.action = some Action.unhook ∨
   h.action = some Action.osc_start ∨ h.action = some Action.osc_end) →
  h.char = -1

/-- Process either leaves the call list alone or appends exactly one
call carrying the processed action and character. -/
theorem process_calls_sub (p : PState) (a : Action) (c : Int) :
    (process p a c).calls = p.calls
    ∨ ∃ raw params, (process p a c).calls
        = p.calls ++ [⟨some a, c, raw, params⟩] := by
  cases a <;> simp only [process, dispatchCb] <;>
    first
      | exact Or.inl rfl
      | exact Or.inl trivial
      | (split_ifs <;>
          first
            | exact Or.inl rfl
            | exact Or.inl trivial
            | exact Or.inr ⟨_, _, rfl⟩)

/-- Processing one action preserves the C10 call property, provided the
action is not an entry or exit action, or the character is -1. -/
theorem process_entryExitOk (p : PState) (a : Action) (c : Int)
    (hc : entryExitActOpt (some a) = false ∨ c = -1)
    (h : ∀ x ∈ p.calls, entryExitOk x) :
    ∀ x ∈ (process p a c).calls, entryExitOk x := by
  rcases process_calls_sub p a c with heq | ⟨raw, params, heq⟩ <;> rw [heq]
  · exact h
  · intro x hx
    rcases List.mem_append.mp hx with hx | hx
    · exact h x hx
    · rw [List.mem_singleton] at hx
      subst hx
      intro hact
      rcases hc with hc | hc
      · exfalso
        simp only at hact
        rcases hact with h4 | h4 | h4 | h4 <;>
          (injection h4 with h4; subst h4; simp [entryExitActOpt] at hc)
      · exact hc

/-- The exit phase preserves the C10 call property: exit actions are
processed with character -1. -/
theorem exitPhase_entryExitOk (p : PState) (c : Int)
    (h : ∀ x ∈ p.calls, entryExitOk x) :
    ∀ x ∈ (exitPhase p c).calls, entryExitOk x := by
  cases hoe : on_exit p.state <;> simp only [exitPhase, hoe]
  · exact h
  · split_ifs
    · intro x hx
      exact process_entryExitOk p _ (-1) (Or.inr rfl) h x (by simpa using hx)
    · exact process_entryExitOk p _ (-1) (Or.inr rfl) h

/-- The action phase preserves the C10 call property for any transition
action that is not an entry or exit action. -/
theorem actionPhase_entryExitOk (p : PState) (a : Option Action) (c : Int)
    (ha : entryExitActOpt a = false)
    (h : ∀ x ∈ p.calls, entryExitOk x) :
    ∀ x ∈ (actionPhase p a c).calls, entryExitOk x := by
  cases a with
  | none => exact h
  | some a => exact process_entryExitOk p a c (Or.inl ha) h

/-- The entry phase preserves the C10 call property: entry actions are
processed with character -1. -/
theorem entryPhase_entryExitOk (p : PState) (ns : State)
    (h : ∀ x ∈ p.calls, entryExitOk x) :
    ∀ x ∈ (entryPhase p ns).calls, entryExitOk x := by
  cases hen : on_entry ns <;> simp only [entryPhase, hen]
  · exact h
  · exact process_entryExitOk p _ (-1) (Or.inr rfl) h

/-- A full transition preserves the C10 call property whenever its own
action is not an entry or exit action. -/
theorem applyTrans_entryExitOk (p : PState) (t : Transition) (c : Int)
    (ha : entryExitActOpt t.action = false)
    (h : ∀ x ∈ p.calls, entryExitOk x) :
    ∀ x ∈ (applyTrans p t c).calls, entryExitOk x := by
  rcases t with ⟨tgt, act⟩
  cases tgt with
  | none => exact actionPhase_entryExitOk p act c ha h
  | some ns =>
    simp only [applyTrans]
    intro x hx
    exact entryPhase_entryExitOk _ ns
      (actionPhase_entryExitOk _ act c ha (exitPhase_entryExitOk p c h)) x
      (by simpa using hx)

/-- One main-loop iteration preserves the C10 call property: the table
never stores an entry or exit action. -/
theorem parse_one_entryExitOk (p : PState) (it : Int × List Nat)
    (h : ∀ x ∈ p.calls, entryExitOk x) :
    ∀ x ∈ (parse_one p it).calls, entryExitOk x := by
  have h' : ∀ x ∈ ({ p with curr_raw := p.curr_raw ++ it.2 } : PState).calls,
      entryExitOk x := by simpa using h
  simp only [parse_one]
  split_ifs
  · exact applyTrans_entryExitOk _ _ _ (lookup_no_entry_exit p.state 0x7E) h'
  · exact applyTrans_entryExitOk _ _ _ (lookup_no_entry_exit p.state _) h'
  · exact applyTrans_entryExitOk _ _ _ (lookup_no_entry_exit p.state _) h'

/-- The whole main loop preserves the C10 call property. -/
theorem parse_items_entryExitOk (items : List (Int × List Nat)) :
    ∀ p : PState, (∀ x ∈ p.calls, entryExitOk x) →
      ∀ x ∈ (parse_items p items).calls, entryExitOk x := by
  induction items with
  | nil => intro p h; exact h
  | cons it its ih =>
    intro p h
    simp only [parse_items, List.foldl_cons] at *
    exact ih _ (parse_one_entryExitOk p it h)

/-- C10: whenever the handler is invoked with action hook, unhook,
osc_start or osc_end, the character argument is -1: entry and exit
actions are dispatched without the triggering code point. -/
theorem claim_C10 (input : List Nat) :
    ∀ h ∈ (parse input).1.calls,
      (h.action = some Action.hook ∨ h.action = some Action.unhook ∨
       h.action = some Action.osc_start ∨ h.action = some Action.osc_end) →
      h.char = -1 := by
  unfold parse try_unicode
  rcases try_unicode_go none input with ⟨items, tail, term⟩
  have hinit : ∀ x ∈ initP.calls, entryExitOk x := by
    intro x hx
    simp [initP] at hx
  have hitems := parse_items_entryExitOk items initP hinit
  cases term
  · intro h hh hact
    simp only at hh
    exact hitems h hh hact
  · intro h hh hact
    simp only at hh
    rcases List.mem_append.mp hh with hh | hh
    · exact hitems h hh hact
    · rw [List.mem_singleton] at hh
      subst hh
      simp [sentinelCall] at hact

/-- Witness for C10: the hook call made while opening the DCS sequence
ESC P q carries character -1. -/
theorem claim_C10_witness :
    (⟨some Action.hook, -1, [0x1B, 0x50, 0x71], initParams⟩
      : HandlerCall).char = -1 := by
  have hmem : (⟨some Action.hook, -1, [0x1B, 0x50, 0x71], initParams⟩
      : HandlerCall) ∈ (parse [0x1B, 0x50, 0x71]).1.calls := by
    rw [show (parse [0x1B, 0x50, 0x71]).1.calls
        = [⟨some Action.hook, -1, [0x1B, 0x50, 0x71], initParams⟩,
           ⟨none, -1, [], initParams⟩] from rfl]
    exact List.mem_cons_self _ _
  exact claim_C10 [0x1B, 0x50, 0x71] _ hmem (Or.inl rfl)

end DecAnsi
